import Mathlib

/-!
Verification of the GPX-to-GeoJSON pipeline of the `bwmap` repository.

The development shallowly embeds the pure data-transformation routines of
`src/util/togj.js` and the generic binary search of `src/js/gpxmap.js` and
proves the testable properties of the specification about them.

Modelling conventions:
* JavaScript numbers are modelled as `ℚ` (the code performs only field
  arithmetic and comparisons on them); `Math.round` becomes `jsRound`.
* JavaScript `undefined` is modelled by `Option`; an expression that would
  raise a `TypeError` (property access on `undefined`) or fail an
  `assert` is modelled by the whole operation returning `none`.
* Loops are modelled by structurally recursive functions with an explicit
  iteration budget (`fuel`); the top-level entry points supply a budget
  that is proved sufficient, so the budget never alters behaviour.
-/

namespace BwMap

/-- The loop body of `search` from `src/js/gpxmap.js`:

    let le = -1, ri = array.length;
    while (1 + le !== ri) {
        const mi = le + ((ri - le) >> 1);
        if (pred(array[mi])) { ri = mi; } else { le = mi; }
    }
    return ri;

`le` and `ri` are JavaScript integers, modelled as `Int`.  In every state
reachable from `search` we have `le < ri`, so `(ri - le) >> 1` is the
floor (= truncating) division `(ri - le) / 2` and `array[mi]` is in
bounds (modelled with `List.getD`).  `fuel` bounds the number of loop
iterations; `search` supplies `1 + array.length`, which is proved never
to be exhausted. -/
def searchLoop (array : List α) [Inhabited α] (pred : α → Bool) :
    Nat → Int → Int → Int
  | 0, _le, ri => ri
  | fuel + 1, le, ri =>
    if 1 + le = ri then ri
    else
      let mi := le + (ri - le) / 2
      if pred (array.getD mi.toNat default) then searchLoop array pred fuel le mi
      else searchLoop array pred fuel mi ri

/-- `search` from `src/js/gpxmap.js`: binary search for the index where
`pred` flips from false to true. -/
def search (array : List α) [Inhabited α] (pred : α → Bool) : Int :=
  searchLoop array pred (1 + array.length) (-1) array.length

/-- The inner loop of `forEachUniqueRange` from `src/util/togj.js`:

    for (hi = 1 + lo; hi !== array.length && equal(array[lo], array[hi]); ++hi)
        ;

advances `hi` from `1 + lo` while the element at `hi` is equivalent to
the one at `lo`.  `fuel` bounds the iterations; the callers supply
`array.length`, which is proved sufficient (the loop stops at
`array.length` at the latest). -/
def findHi (array : List α) [Inhabited α] (equal : α → α → Bool) (lo : Nat) :
    Nat → Nat → Nat
  | 0, hi => hi
  | fuel + 1, hi =>
    if hi ≠ array.length ∧ equal (array.getD lo default) (array.getD hi default) then
      findHi array equal lo fuel (hi + 1)
    else hi

/-- The outer loop of `forEachUniqueRange` from `src/util/togj.js`:

    for (let lo = 0, hi; lo !== array.length; lo = hi) { ...; res.push(func(lo, hi, array)); }

`fuel` bounds the iterations; `forEachUniqueRange` supplies
`array.length`, which is proved sufficient (`lo` strictly increases). -/
def uniqueRangeLoop (array : List α) [Inhabited α] (equal : α → α → Bool)
    (func : Nat → Nat → List α → β) : Nat → Nat → List β
  | 0, _lo => []
  | fuel + 1, lo =>
    if lo ≠ array.length then
      let hi := findHi array equal lo array.length (1 + lo)
      func lo hi array :: uniqueRangeLoop array equal func fuel hi
    else []

/-- `forEachUniqueRange` from `src/util/togj.js`: invoke `func` with a
start and end index into `array` for each range of elements that are
equivalent according to `equal`, collecting the results. -/
def forEachUniqueRange (array : List α) [Inhabited α] (equal : α → α → Bool)
    (func : Nat → Nat → List α → β) : List β :=
  uniqueRangeLoop array equal func array.length 0

/-- The list of index ranges `(lo, hi)` that `forEachUniqueRange` passes
to its callback. -/
def uniqueRanges (array : List α) [Inhabited α] (equal : α → α → Bool) :
    List (Nat × Nat) :=
  forEachUniqueRange array equal (fun lo hi _ => (lo, hi))

/-- `array.slice(lo, hi)` of JavaScript, for in-range indices. -/
def jsSlice (array : List α) (lo hi : Nat) : List α :=
  (array.drop lo).take (hi - lo)

/-- The ranges `(lo, hi)` returned by `forEachUniqueRange` chain
contiguously from `lo` to `n`: each range is non-empty, starts where the
previous one ended, and the last one ends at `n`. -/
def chainFrom (lo n : Nat) : List (Nat × Nat) → Prop
  | [] => lo = n
  | r :: rest => r.1 = lo ∧ lo < r.2 ∧ chainFrom r.2 n rest

/-- A GeoJSON coordinate: a list of numbers — longitude, latitude and
optionally altitude; its length is the coordinate's dimensionality. -/
abbrev Coord := List ℚ

/-- The `coordTimes` property: either a flat array of timestamp strings
(on a `LineString` feature, one per coordinate) or a nested array of
per-part timestamp arrays (on a `MultiLineString` feature, and on the
merged feature built by `mergeLines`).  The JavaScript value is untyped;
these are the two shapes the pipeline produces and consumes. -/
inductive CoordTimes where
  | flat (ts : List String)
  | nested (tss : List (List String))
deriving DecidableEq

/-- A GeoJSON geometry as handled by `src/util/togj.js`: single or
multi-part lines, or any other geometry (represented by `point`), which
every stage passes through or filters out. -/
inductive Geometry where
  | lineString (coordinates : List Coord)
  | multiLineString (coordinates : List (List Coord))
  | point (coordinates : Coord)
deriving DecidableEq

/-- `feature.geometry.type.endsWith('LineString')`. -/
def isLineType : Geometry → Bool
  | Geometry.lineString _ => true
  | Geometry.multiLineString _ => true
  | Geometry.point _ => false

/-- `feature.geometry.type === 'LineString'`. -/
def isLineString : Geometry → Bool
  | Geometry.lineString _ => true
  | _ => false

/-- The property bag of a feature: the fields the pipeline reads or
writes, each optional (`none` models an absent property, JavaScript
`undefined`). -/
structure Properties where
  gpxFileName : Option String := none
  time : Option String := none
  coordTimes : Option CoordTimes := none
  date : Option String := none
  distance : Option Int := none
deriving DecidableEq

/-- A GeoJSON feature.  `type: 'Feature'` is implicit: every feature the
pipeline builds carries it, so every `assert.equal(feature.type,
'Feature')` of the source succeeds on values of this type.  `bbox` is
`none` until `addBbox` attaches one; its entries are `Option ℚ` because
leaflet bounds carry no altitude, so the altitude slots of a 3-D
bounding box hold `undefined`. -/
structure Feature where
  properties : Properties := {}
  geometry : Geometry
  bbox : Option (List (Option ℚ)) := none
deriving DecidableEq

instance : Inhabited Feature :=
  ⟨{ geometry := Geometry.lineString [] }⟩

/-- JavaScript `a || b` on two optional strings: `undefined` and the
empty string are falsy. -/
def jsOrS : Option String → Option String → Option String
  | some s, b => if s = "" then b else some s
  | none, b => b

/-- `Array.prototype.map` with a callback that may fail an assertion:
the whole map is `none` as soon as the callback fails on any element
(the process aborts). -/
def optionMap (g : γ → Option δ) : List γ → Option (List δ)
  | [] => some []
  | x :: xs =>
    match g x, optionMap g xs with
    | some y, some ys => some (y :: ys)
    | _, _ => none

/-- The timestamp list of a flat `coordTimes` value (`[]` for the other
shapes; only used where the flat shape was established). -/
def ctFlat : Option CoordTimes → List String
  | some (CoordTimes.flat ts) => ts
  | _ => []

/-- The fallback branch of `dateSplit`: assign a `date` (the first 10
characters of `time`, falling back to the file name) and return the
feature otherwise unchanged.  `none` models the `TypeError` raised by
`substr` when both `time` and `gpxFileName` are `undefined`. -/
def dateSplitFallback (feature : Feature) : Option (List Feature) :=
  match jsOrS feature.properties.time feature.properties.gpxFileName with
  | some s =>
    some [{ properties := { feature.properties with date := some (s.take 10) }
            geometry := feature.geometry }]
  | none => none

/-- The per-run callback of `dateSplit`: the feature for the run
`[lo, hi)`, with `coordTimes`, `time`, `date` and the coordinates all
sliced to the run.  Like the source closure, it ignores the array
argument that `forEachUniqueRange` passes back. -/
def dateSplitRun (feature : Feature) (ts : List String) (coordinates : List Coord)
    (lo hi : Nat) : List String → Feature :=
  fun _array =>
  let runTimes := jsSlice ts lo hi
  { properties :=
      { feature.properties with
        coordTimes := some (CoordTimes.flat runTimes)
        time := runTimes.head?
        date := runTimes.head?.map (fun s => s.take 10) }
    geometry := Geometry.lineString (jsSlice coordinates lo hi) }

/-- `dateSplit` from `src/util/togj.js`.  If the `LineString` feature
has a `coordTimes` array aligned 1:1 with its coordinates, split it into
one `LineString` per calendar date (the first 10 characters of the
timestamp) via `forEachUniqueRange` and `dateSplitRun`; any other
feature — including one whose `coordTimes` length mismatches its
coordinate count — takes the fallback branch unchanged.  (The
`assert.equal` between the two lengths that follows the condition in the
source is unreachable-false: the condition already routed every mismatch
to the fallback.)  `none` models a `TypeError`: nested `coordTimes` on a
`LineString` would flow into `substr` on an array. -/
def dateSplit (feature : Feature) : Option (List Feature) :=
  match feature.geometry, feature.properties.coordTimes with
  | Geometry.lineString coordinates, some (CoordTimes.flat ts) =>
    if ts.length = coordinates.length then
      some (forEachUniqueRange ts
        (fun lhs rhs => lhs.take 10 == rhs.take 10)
        (dateSplitRun feature ts coordinates))
    else dateSplitFallback feature
  | Geometry.lineString coordinates, some (CoordTimes.nested tss) =>
    if tss.length = coordinates.length then none
    else dateSplitFallback feature
  | _, _ => dateSplitFallback feature

/-- One part of `multiSplit`: build the `LineString` feature for part
`i` of a `MultiLineString`, selecting the matching `coordTimes` entry.
`none` models a failed assertion: the part index not covered by
`coordTimes`, the entry's length differing from the part's coordinate
count, or `time` differing from the first timestamp. -/
def multiSplitPart (properties : Properties) (tss : List (List String)) :
    Nat × List Coord → Option Feature
  | (i, coordinates) =>
    if i < tss.length then
      if (tss.getD i []).length = coordinates.length then
        if properties.time = (tss.getD 0 []).head? then
          some { properties :=
                   { properties with
                     coordTimes := some (CoordTimes.flat (tss.getD i []))
                     time := (tss.getD i []).head? }
                 geometry := Geometry.lineString coordinates }
        else none
      else none
    else none

/-- `multiSplit` from `src/util/togj.js`: split a `MultiLineString`
feature into one `LineString` feature per part while preserving
properties; other features pass through unchanged.  `none` models a
failed assertion in a part (see `multiSplitPart`); a flat `coordTimes`
on a `MultiLineString` is outside the shapes the pipeline produces and
is modelled as a failure as well. -/
def multiSplit (feature : Feature) : Option (List Feature) :=
  match feature.geometry with
  | Geometry.multiLineString parts =>
    match feature.properties.coordTimes with
    | none =>
      some (parts.map (fun coordinates =>
        { properties := feature.properties
          geometry := Geometry.lineString coordinates }))
    | some (CoordTimes.nested tss) =>
      optionMap (multiSplitPart feature.properties tss) parts.enum
    | some (CoordTimes.flat _) => none
  | _ => some [feature]

/-- The coordinates of a `LineString` geometry; in `mergeLines` this is
only applied after the `every(... === 'LineString')` assertion. -/
def lineStringCoords : Geometry → List Coord
  | Geometry.lineString coordinates => coordinates
  | _ => []

/-- The per-element step of the `coordTimes` merge in `mergeLines`:
extract the element's flat timestamp array, asserting its length equals
the element's own coordinate count.  `none` models the failed assertion,
or the `TypeError` when the element carries no `coordTimes` at all. -/
def mergeTimes (walk : Feature) : Option (List String) :=
  match walk.properties.coordTimes with
  | some (CoordTimes.flat ts) =>
    if ts.length = (lineStringCoords walk.geometry).length then some ts else none
  | _ => none

/-- `mergeLines` from `src/util/togj.js`: merge the features in the
index range `[lo, hi)` into one `MultiLineString` feature.  A range of
at most one feature returns `features[lo]` unchanged (`none` models the
out-of-range access).  Otherwise all features of the range must be
`LineString`s; the merged feature carries only the first one's `date`
and, when the first one has `coordTimes`, the ordered per-part timestamp
arrays together with the first part's first timestamp as `time`. -/
def mergeLines (lo hi : Nat) (features : List Feature) : Option Feature :=
  if hi ≤ lo + 1 then features[lo]?
  else
    let slice := jsSlice features lo hi
    if slice.all (fun f => isLineString f.geometry) then
      match slice.head? with
      | none => none
      | some first =>
        let coordinates := slice.map (fun walk => lineStringCoords walk.geometry)
        match first.properties.coordTimes with
        | none =>
          some { properties := { date := first.properties.date }
                 geometry := Geometry.multiLineString coordinates }
        | some _ =>
          match optionMap mergeTimes slice with
          | none => none
          | some coordTimes =>
            some { properties :=
                     { date := first.properties.date
                       coordTimes := some (CoordTimes.nested coordTimes)
                       time := (coordTimes.getD 0 []).head? }
                   geometry := Geometry.multiLineString coordinates }
    else none

/-- A leaflet `LatLng`: latitude, longitude and optional altitude. -/
structure LatLng where
  lat : ℚ
  lng : ℚ
  alt : Option ℚ := none
deriving DecidableEq

/-- A polyline as passed to `distance` in `src/util/togj.js`: either a
single line (an array of points — its first element has no `length`
property) or a multi-line (an array of parts). -/
inductive Poly where
  | single (pts : List LatLng)
  | multi (parts : List (List LatLng))
deriving DecidableEq

/-- The inner loop of `distance`, walking a segment from its last point
towards its first and accumulating `earth p q` for the carried point `p`
and the visited point `q`.  The source loop visits the points in reverse
order and its first step adds `earth p p` for the last point `p` (the
carry starts at the point the iteration also starts at). -/
def distLoop (earth : LatLng → LatLng → ℚ) : LatLng → List LatLng → ℚ
  | _, [] => 0
  | p, q :: rest => earth p q + distLoop earth q rest

/-- The per-segment summand of `distance`: `0` for a segment of fewer
than two points, otherwise the loop over the reversed segment. -/
def segDist (earth : LatLng → LatLng → ℚ) (seg : List LatLng) : ℚ :=
  if 1 < seg.length then
    match seg.reverse with
    | [] => 0
    | p :: qs => distLoop earth p (p :: qs)
  else 0

/-- `distance` from `src/util/togj.js`: the length of a polyline,
generalised to multi-polylines by wrapping, as the `reduce` over parts
of the per-segment sums.  `L.CRS.Earth.distance` is external leaflet
code and enters as the parameter `earth`. -/
def distance (earth : LatLng → LatLng → ℚ) : Poly → ℚ
  | Poly.single pts =>
    if pts.length = 0 then 0
    else List.foldl (fun dist seg => dist + segDist earth seg) 0 [pts]
  | Poly.multi parts =>
    if parts.length = 0 then 0
    else List.foldl (fun dist seg => dist + segDist earth seg) 0 parts

/-- leaflet `L.GeoJSON.coordsToLatLngs` at depth 0 on one GeoJSON
coordinate: `[lng, lat]` or `[lng, lat, alt]` becomes a `LatLng`. -/
def coordToLatLng (c : Coord) : LatLng :=
  { lat := c.getD 1 0, lng := c.getD 0 0, alt := c.get? 2 }

/-- leaflet `L.polyline(latLngs).getBounds()`: the south-west and
north-east corners, as the minima and maxima of latitude and longitude
over all points.  Leaflet bounds carry no altitude, so the corners'
`alt` is `none` even for 3-D points.  `none` for an empty line, whose
leaflet bounds object is invalid (accessing its corners throws). -/
def boundsOf (pts : List LatLng) : Option (LatLng × LatLng) :=
  match pts with
  | [] => none
  | p :: rest =>
    some (List.foldl
      (fun corners q =>
        ({ lat := min corners.1.lat q.lat, lng := min corners.1.lng q.lng },
         { lat := max corners.2.lat q.lat, lng := max corners.2.lng q.lng }))
      ({ lat := p.lat, lng := p.lng }, { lat := p.lat, lng := p.lng }) rest)

/-- JavaScript `Math.round`: round to the nearest integer, halves
towards positive infinity. -/
def jsRound (x : ℚ) : Int := (x + 1 / 2).floor

/-- `addBbox` from `src/util/togj.js`: compute the bounding box and the
rounded distance of a line or multi-line feature, returning a fresh
feature whose properties are only `date` and `distance`; any other
feature passes through unchanged.  The dimensionality assertion examines
only `geometry.coordinates[0]` (or `coordinates[0][0]` for a
multi-line): `none` models its failure — a first coordinate that is
neither 3-D nor 2-D — or the `TypeError` on an empty coordinate
array. -/
def addBbox (earth : LatLng → LatLng → ℚ) (feature : Feature) : Option Feature :=
  match feature.geometry with
  | Geometry.point _ => some feature
  | Geometry.lineString coordinates =>
    let latLngs := coordinates.map coordToLatLng
    match boundsOf latLngs, coordinates.head? with
    | some (sw, ne), some c0 =>
      if c0.length = 3 then
        some { bbox := some [some sw.lng, some sw.lat, sw.alt,
                             some ne.lng, some ne.lat, ne.alt]
               properties :=
                 { date := feature.properties.date
                   distance := some (jsRound (distance earth (Poly.single latLngs))) }
               geometry := feature.geometry }
      else if c0.length = 2 then
        some { bbox := some [some sw.lng, some sw.lat, some ne.lng, some ne.lat]
               properties :=
                 { date := feature.properties.date
                   distance := some (jsRound (distance earth (Poly.single latLngs))) }
               geometry := feature.geometry }
      else none
    | _, _ => none
  | Geometry.multiLineString parts =>
    let latLngsParts := parts.map (fun part => part.map coordToLatLng)
    match boundsOf latLngsParts.flatten, (parts.getD 0 []).head? with
    | some (sw, ne), some c0 =>
      if c0.length = 3 then
        some { bbox := some [some sw.lng, some sw.lat, sw.alt,
                             some ne.lng, some ne.lat, ne.alt]
               properties :=
                 { date := feature.properties.date
                   distance := some (jsRound (distance earth (Poly.multi latLngsParts))) }
               geometry := feature.geometry }
      else if c0.length = 2 then
        some { bbox := some [some sw.lng, some sw.lat, some ne.lng, some ne.lat]
               properties :=
                 { date := feature.properties.date
                   distance := some (jsRound (distance earth (Poly.multi latLngsParts))) }
               geometry := feature.geometry }
      else none
    | _, _ => none

/-- A `LineString` feature whose `coordTimes` length (1) differs from
its coordinate count (2): the input of the C3 counterexample. -/
def c3Mismatch : Feature :=
  { properties :=
      { gpxFileName := some "2017-06-10-loop.gpx"
        time := some "2017-06-10T08:00:00Z"
        coordTimes := some (CoordTimes.flat ["2017-06-10T08:00:00Z"]) }
    geometry := Geometry.lineString [[8, 47], [9, 48]] }

/-- A `MultiLineString` feature whose second part has 2 coordinates but
a 1-entry `coordTimes` sub-array: the input of the C3 witness. -/
def c3MultiBad : Feature :=
  { properties :=
      { time := some "2017-06-10T08:00:00Z"
        coordTimes := some (CoordTimes.nested
          [["2017-06-10T08:00:00Z"], ["2017-06-10T08:05:00Z"]]) }
    geometry := Geometry.multiLineString [[[8, 47]], [[9, 48], [10, 49]]] }

/-- Two same-date `LineString` features carrying aligned `coordTimes`:
the inputs of the C5 and C9 witnesses. -/
def c5A : Feature :=
  { properties :=
      { gpxFileName := some "a.gpx"
        date := some "2017-06-10"
        time := some "2017-06-10T08:00"
        coordTimes := some (CoordTimes.flat ["2017-06-10T08:00", "2017-06-10T08:05"]) }
    geometry := Geometry.lineString [[1, 2], [3, 4]] }

/-- See `c5A`. -/
def c5B : Feature :=
  { properties :=
      { gpxFileName := some "b.gpx"
        date := some "2017-06-10"
        time := some "2017-06-10T09:00"
        coordTimes := some (CoordTimes.flat ["2017-06-10T09:00"]) }
    geometry := Geometry.lineString [[5, 6]] }

/-- Two same-date `LineString` features carrying no `coordTimes`: the
inputs of the C5 witness's first branch. -/
def c5C : Feature :=
  { properties := { gpxFileName := some "2017-06-10-a.gpx", date := some "2017-06-10" }
    geometry := Geometry.lineString [[1, 2], [3, 4]] }

/-- See `c5C`. -/
def c5D : Feature :=
  { properties := { gpxFileName := some "2017-06-10-b.gpx", date := some "2017-06-10" }
    geometry := Geometry.lineString [[5, 6], [7, 8]] }

/-- A line whose first coordinate is 2-D while its second is 3-D: the
input of the C8 counterexample. -/
def c8Mixed : Feature :=
  { properties := { date := some "2017-06-10" }
    geometry := Geometry.lineString [[0, 0], [1, 1, 5]] }

/-- A plain 2-D line feature carrying `coordTimes`, `time` and a file
name: the input of the C9 witness. -/
def c9Line : Feature :=
  { properties :=
      { gpxFileName := some "c.gpx"
        time := some "2017-06-10T08:00"
        date := some "2017-06-10"
        coordTimes := some (CoordTimes.flat ["2017-06-10T08:00", "2017-06-10T08:05"]) }
    geometry := Geometry.lineString [[1, 2], [3, 4]] }

/-- A `LineString` feature spanning two calendar days through its
`coordTimes`: the input of the C4 witness. -/
def c4TwoDay : Feature :=
  { properties :=
      { gpxFileName := some "a.gpx"
        time := some "2017-06-10T23:50"
        coordTimes := some (CoordTimes.flat
          ["2017-06-10T23:50", "2017-06-10T23:55", "2017-06-11T00:10"]) }
    geometry := Geometry.lineString [[1, 2], [3, 4], [5, 6]] }

end BwMap

namespace BwMap

/-- The interval `(le, ri)` is strictly shrunk by each iteration of
`searchLoop`, and the result stays inside it:
if `le < ri` and the fuel covers the interval, the result lies in
`(le, ri]`. -/
theorem searchLoop_mem (array : List α) [Inhabited α] (pred : α → Bool) :
    ∀ (fuel : Nat) (le ri : Int), le < ri → ri - le ≤ 1 + fuel →
      le < searchLoop array pred fuel le ri ∧ searchLoop array pred fuel le ri ≤ ri := by
  intro fuel
  induction fuel with
  | zero =>
    intro le ri hlt _
    exact ⟨hlt, le_refl _⟩
  | succ fuel ih =>
    intro le ri hlt hfuel
    rw [searchLoop]
    by_cases hdone : 1 + le = ri
    · simp [hdone, hlt]
    · simp only [hdone, if_false]
      have hgap : le + 2 ≤ ri := by omega
      have hmid : le < le + (ri - le) / 2 ∧ le + (ri - le) / 2 < ri := by omega
      by_cases hp : pred (array.getD (le + (ri - le) / 2).toNat default)
      · simp only [hp, if_true]
        have h := ih le (le + (ri - le) / 2) hmid.1 (by omega)
        exact ⟨h.1, le_trans h.2 (le_of_lt hmid.2)⟩
      · simp only [hp, if_false]
        have h := ih (le + (ri - le) / 2) ri hmid.2 (by omega)
        exact ⟨lt_trans hmid.1 h.1, h.2⟩

/-- Once the fuel covers the interval, adding more fuel does not change
the result of `searchLoop`: the loop has already terminated. -/
theorem searchLoop_fuel (array : List α) [Inhabited α] (pred : α → Bool) :
    ∀ (fuel fuel' : Nat) (le ri : Int), le < ri →
      ri - le ≤ 1 + fuel → ri - le ≤ 1 + fuel' →
      searchLoop array pred fuel le ri = searchLoop array pred fuel' le ri := by
  intro fuel
  induction fuel with
  | zero =>
    intro fuel' le ri hlt hf _
    have hri : 1 + le = ri := by omega
    cases fuel' with
    | zero => rfl
    | succ fuel' => rw [searchLoop, searchLoop, if_pos hri]
  | succ fuel ih =>
    intro fuel' le ri hlt hf hf'
    cases fuel' with
    | zero =>
      have hri : 1 + le = ri := by omega
      rw [searchLoop, searchLoop, if_pos hri]
    | succ fuel' =>
      rw [searchLoop, searchLoop]
      by_cases hdone : 1 + le = ri
      · rw [if_pos hdone, if_pos hdone]
      · rw [if_neg hdone, if_neg hdone]
        have hmid : le < le + (ri - le) / 2 ∧ le + (ri - le) / 2 < ri := by omega
        by_cases hp : pred (array.getD (le + (ri - le) / 2).toNat default)
        · simp only [hp, if_true]
          exact ih fuel' le (le + (ri - le) / 2) hmid.1 (by omega) (by omega)
        · simp only [hp, if_false]
          exact ih fuel' (le + (ri - le) / 2) ri hmid.2 (by omega) (by omega)

end BwMap

namespace BwMap

/-- If `pred` is false strictly below a threshold `t` and true from `t` on,
then `searchLoop` started on any interval enclosing `t` returns `t`. -/
theorem searchLoop_boundary (array : List α) [Inhabited α] (pred : α → Bool) (t : Nat)
    (hfalse : ∀ i : Nat, i < t → pred (array.getD i default) = false)
    (htrue : ∀ i : Nat, i < array.length → t ≤ i → pred (array.getD i default) = true) :
    ∀ (fuel : Nat) (le ri : Int), -1 ≤ le → ri ≤ array.length →
      le < (t : Int) → (t : Int) ≤ ri → ri - le ≤ 1 + fuel →
      searchLoop array pred fuel le ri = t := by
  intro fuel
  induction fuel with
  | zero =>
    intro le ri h1 h2 h3 h4 h5
    rw [searchLoop]
    omega
  | succ fuel ih =>
    intro le ri h1 h2 h3 h4 h5
    rw [searchLoop]
    by_cases hdone : 1 + le = ri
    · rw [if_pos hdone]; omega
    · rw [if_neg hdone]
      have hmid : le < le + (ri - le) / 2 ∧ le + (ri - le) / 2 < ri := by omega
      by_cases hp : pred (array.getD (le + (ri - le) / 2).toNat default)
      · simp only [hp, if_true]
        have htle : (t : Int) ≤ le + (ri - le) / 2 := by
          by_contra hc
          push_neg at hc
          have hlt : (le + (ri - le) / 2).toNat < t := by omega
          have := hfalse (le + (ri - le) / 2).toNat hlt
          rw [this] at hp
          exact Bool.noConfusion hp
        exact ih le (le + (ri - le) / 2) h1 (by omega) h3 htle (by omega)
      · simp only [hp, if_false]
        have htgt : le + (ri - le) / 2 < (t : Int) := by
          by_contra hc
          push_neg at hc
          have hlen : (le + (ri - le) / 2).toNat < array.length := by omega
          have := htrue (le + (ri - le) / 2).toNat hlen (by omega)
          rw [this] at hp
          exact hp rfl
        exact ih (le + (ri - le) / 2) ri (by omega) h2 htgt h4 (by omega)

/-- **C1**: for every array that is sorted for `pred` — `pred` is false on
all elements below a threshold index `t` and true from `t` onward —
`search` returns exactly `t`; consequently the returned index `i`
satisfies `pred(array[i])` (or `i = array.length`) and (`i = 0` or
`¬ pred(array[i-1])`). -/
theorem claim_C1_search_boundary (array : List α) [Inhabited α] (pred : α → Bool) (t : Nat)
    (ht : t ≤ array.length)
    (hfalse : ∀ i : Nat, i < t → pred (array.getD i default) = false)
    (htrue : ∀ i : Nat, i < array.length → t ≤ i → pred (array.getD i default) = true) :
    search array pred = t ∧
      (t = array.length ∨ pred (array.getD t default) = true) ∧
      (t = 0 ∨ pred (array.getD (t - 1) default) = false) := by
  refine ⟨?_, ?_, ?_⟩
  · exact searchLoop_boundary array pred t hfalse htrue (1 + array.length)
      (-1) array.length (by omega) (by omega) (by omega) (by omega) (by omega)
  · rcases lt_or_eq_of_le ht with hlt | heq
    · exact Or.inr (htrue t hlt (le_refl t))
    · exact Or.inl heq
  · rcases Nat.eq_zero_or_pos t with h0 | hpos
    · exact Or.inl h0
    · exact Or.inr (hfalse (t - 1) (by omega))

/-- Witness for C1 at the array `[5, 6, 7, 9]` with the predicate
`7 ≤ ·`, whose threshold index is `2`. -/
theorem claim_C1_search_boundary_witness :
    (∀ i : Nat, i < 2 → (decide (7 ≤ [5, 6, 7, 9].getD i 0)) = false) ∧
      search [5, 6, 7, 9] (fun x : Nat => decide (7 ≤ x)) = 2 := by
  constructor
  · decide
  · exact (claim_C1_search_boundary [5, 6, 7, 9] (fun x : Nat => decide (7 ≤ x)) 2
      (by decide) (by decide) (by decide)).1

/-- **C10**: for every array and every predicate whatsoever — with no
monotonicity or sortedness assumption — `search` terminates with an
integer `i` such that `0 ≤ i ≤ array.length`.  Termination is expressed
by the last conjunct: any iteration budget of at least `array.length`
already yields the final answer, because every iteration strictly
shrinks the open interval `(le, ri)`. -/
theorem claim_C10_search_total (array : List α) [Inhabited α] (pred : α → Bool) :
    0 ≤ search array pred ∧ search array pred ≤ array.length ∧
      ∀ fuel : Nat, array.length ≤ fuel →
        searchLoop array pred fuel (-1) array.length = search array pred := by
  have hb := searchLoop_mem array pred (1 + array.length) (-1) array.length
    (by omega) (by omega)
  refine ⟨?_, ?_, ?_⟩
  · have h1 := hb.1
    rw [search]
    omega
  · have h2 := hb.2
    rw [search]
    omega
  · intro fuel hf
    rw [search]
    exact searchLoop_fuel array pred fuel (1 + array.length) (-1) array.length
      (by omega) (by omega) (by omega)

/-- Witness for C10 at a concrete array with a non-monotonic predicate. -/
theorem claim_C10_search_total_witness :
    0 ≤ search [3, 1, 2] (fun x : Nat => decide (x = 2)) ∧
      search [3, 1, 2] (fun x : Nat => decide (x = 2)) ≤ ([3, 1, 2] : List Nat).length := by
  have h := claim_C10_search_total [3, 1, 2] (fun x : Nat => decide (x = 2))
  exact ⟨h.1, h.2.1⟩

end BwMap

namespace BwMap

/-- `findHi` never moves `hi` backwards nor past the end of the array. -/
theorem findHi_le (array : List α) [Inhabited α] (equal : α → α → Bool) (lo : Nat) :
    ∀ (fuel hi : Nat), hi ≤ array.length → array.length - hi ≤ fuel →
      hi ≤ findHi array equal lo fuel hi ∧ findHi array equal lo fuel hi ≤ array.length := by
  intro fuel
  induction fuel with
  | zero =>
    intro hi h1 h2
    rw [findHi]
    omega
  | succ fuel ih =>
    intro hi h1 h2
    rw [findHi]
    by_cases hc : hi ≠ array.length ∧
        equal (array.getD lo default) (array.getD hi default) = true
    · rw [if_pos hc]
      have h := ih (hi + 1) (by omega) (by omega)
      omega
    · rw [if_neg hc]
      omega

/-- `findHi` returns the least index at which the scan stops: if every
index in `[hi, m)` is equivalent to the element at `lo` and the scan
stops at `m` (end of array, or inequivalent element), then `findHi`
returns exactly `m`. -/
theorem findHi_eq (array : List α) [Inhabited α] (equal : α → α → Bool) (lo : Nat) :
    ∀ (fuel hi m : Nat), hi ≤ m → m ≤ array.length → array.length - hi ≤ fuel →
      (∀ j, hi ≤ j → j < m → equal (array.getD lo default) (array.getD j default) = true) →
      (m = array.length ∨ equal (array.getD lo default) (array.getD m default) = false) →
      findHi array equal lo fuel hi = m := by
  intro fuel
  induction fuel with
  | zero =>
    intro hi m h1 h2 h3 _ _
    rw [findHi]
    omega
  | succ fuel ih =>
    intro hi m h1 h2 h3 hall hstop
    rw [findHi]
    rcases Nat.eq_or_lt_of_le h1 with heq | hlt
    · subst heq
      rw [if_neg]
      rcases hstop with hend | hne
      · intro hc
        exact hc.1 hend
      · intro hc
        rw [hc.2] at hne
        exact Bool.noConfusion hne
    · rw [if_pos ⟨by omega, hall hi (le_refl hi) hlt⟩]
      exact ih (hi + 1) m hlt h2 (by omega) (fun j hj hjm => hall j (by omega) hjm) hstop

/-- Every index strictly inside the range scanned by `findHi` holds an
element equivalent to the element at `lo`. -/
theorem findHi_within (array : List α) [Inhabited α] (equal : α → α → Bool) (lo : Nat) :
    ∀ (fuel hi : Nat), hi ≤ array.length → array.length - hi ≤ fuel →
      ∀ j, hi ≤ j → j < findHi array equal lo fuel hi →
        equal (array.getD lo default) (array.getD j default) = true := by
  intro fuel
  induction fuel with
  | zero =>
    intro hi h1 h2 j hj hjlt
    rw [findHi] at hjlt
    omega
  | succ fuel ih =>
    intro hi h1 h2 j hj hjlt
    rw [findHi] at hjlt
    by_cases hc : hi ≠ array.length ∧
        equal (array.getD lo default) (array.getD hi default) = true
    · rw [if_pos hc] at hjlt
      rcases Nat.eq_or_lt_of_le hj with heq | hlt
      · subst heq
        exact hc.2
      · exact ih (hi + 1) (by omega) (by omega) j hlt hjlt
    · rw [if_neg hc] at hjlt
      omega

/-- The ranges produced by the outer loop of `forEachUniqueRange` chain
contiguously from the starting index to the end of the array. -/
theorem uniqueRangeLoop_chain (array : List α) [Inhabited α] (equal : α → α → Bool) :
    ∀ (fuel lo : Nat), lo ≤ array.length → array.length - lo ≤ fuel →
      chainFrom lo array.length
        (uniqueRangeLoop array equal (fun l h _ => (l, h)) fuel lo) := by
  intro fuel
  induction fuel with
  | zero =>
    intro lo h1 h2
    rw [uniqueRangeLoop]
    show lo = array.length
    omega
  | succ fuel ih =>
    intro lo h1 h2
    rw [uniqueRangeLoop]
    by_cases hc : lo ≠ array.length
    · rw [if_pos hc]
      have hfind := findHi_le array equal lo array.length (1 + lo) (by omega) (by omega)
      refine ⟨rfl, by omega, ?_⟩
      exact ih (findHi array equal lo array.length (1 + lo)) (by omega) (by omega)
    · rw [if_neg hc]
      show lo = array.length
      omega

/-- `forEachUniqueRange` with an arbitrary callback factors through the
list of ranges passed to the callback. -/
theorem uniqueRangeLoop_map (array : List α) [Inhabited α] (equal : α → α → Bool)
    (func : Nat → Nat → List α → β) :
    ∀ (fuel lo : Nat),
      uniqueRangeLoop array equal func fuel lo =
        (uniqueRangeLoop array equal (fun l h _ => (l, h)) fuel lo).map
          (fun r => func r.1 r.2 array) := by
  intro fuel
  induction fuel with
  | zero =>
    intro lo
    rw [uniqueRangeLoop, uniqueRangeLoop]
    rfl
  | succ fuel ih =>
    intro lo
    rw [uniqueRangeLoop, uniqueRangeLoop]
    by_cases hc : lo ≠ array.length
    · rw [if_pos hc, if_pos hc]
      show func lo (findHi array equal lo array.length (1 + lo)) array ::
          uniqueRangeLoop array equal func fuel (findHi array equal lo array.length (1 + lo)) =
        List.map (fun r => func r.1 r.2 array)
          ((lo, findHi array equal lo array.length (1 + lo)) ::
            uniqueRangeLoop array equal (fun l h _ => (l, h)) fuel
              (findHi array equal lo array.length (1 + lo)))
      rw [List.map_cons, ih]
    · rw [if_neg hc, if_neg hc]
      rfl

/-- Concatenating the slices of any list `c` along a chain of ranges
ending at `c.length` reproduces the tail of `c` from the chain's start. -/
theorem chainFrom_join (c : List γ) :
    ∀ (rs : List (Nat × Nat)) (lo : Nat), chainFrom lo c.length rs →
      (rs.map (fun r => jsSlice c r.1 r.2)).flatten = c.drop lo := by
  intro rs
  induction rs with
  | nil =>
    intro lo h
    have hlo : lo = c.length := h
    rw [hlo, List.map_nil, List.drop_length]
    rfl
  | cons r rest ih =>
    intro lo h
    obtain ⟨hr1, hr2, hchain⟩ := h
    rw [List.map_cons, List.flatten_cons, ih r.2 hchain, hr1, jsSlice]
    have hdrop : List.drop r.2 c = List.drop (lo + (r.2 - lo)) c := by
      congr 1
      omega
    rw [hdrop]
    exact List.drop_take_append_drop c lo (r.2 - lo)

/-- Every range in a chain is non-empty. -/
theorem chainFrom_pos :
    ∀ (rs : List (Nat × Nat)) (lo n : Nat), chainFrom lo n rs →
      ∀ r ∈ rs, r.1 < r.2 := by
  intro rs
  induction rs with
  | nil =>
    intro lo n _ r hr
    exact absurd hr (List.not_mem_nil r)
  | cons a rest ih =>
    intro lo n h r hr
    obtain ⟨h1, h2, hchain⟩ := h
    rcases List.mem_cons.mp hr with heq | hmem
    · subst heq
      omega
    · exact ih a.2 n hchain r hmem

/-- The ranges of `forEachUniqueRange` chain from `0` to `array.length`. -/
theorem uniqueRanges_chain (array : List α) [Inhabited α] (equal : α → α → Bool) :
    chainFrom 0 array.length (uniqueRanges array equal) :=
  uniqueRangeLoop_chain array equal array.length 0 (Nat.zero_le _) (by omega)

/-- **C2**: for every input array and every equivalence predicate,
`forEachUniqueRange` partitions the index range into contiguous runs
`[lo, hi)`: concatenating all run slices in order reconstructs the
original array, every run is non-empty, and the empty array yields the
empty result list. -/
theorem claim_C2_forEachUniqueRange_partition (array : List α) [Inhabited α]
    (equal : α → α → Bool) :
    (forEachUniqueRange array equal (fun lo hi a => jsSlice a lo hi)).flatten = array ∧
      (∀ r ∈ uniqueRanges array equal, r.1 < r.2) ∧
      forEachUniqueRange ([] : List α) equal (fun lo hi a => jsSlice a lo hi) = [] := by
  refine ⟨?_, ?_, rfl⟩
  · rw [forEachUniqueRange, uniqueRangeLoop_map]
    have h := chainFrom_join array (uniqueRanges array equal) 0 (uniqueRanges_chain array equal)
    rw [List.drop_zero] at h
    exact h
  · exact chainFrom_pos (uniqueRanges array equal) 0 array.length (uniqueRanges_chain array equal)

end BwMap

namespace BwMap

/-- If the callback fails on any element of the list, `optionMap` fails. -/
theorem optionMap_none_of_mem (g : γ → Option δ) :
    ∀ (l : List γ) (x : γ), x ∈ l → g x = none → optionMap g l = none := by
  intro l
  induction l with
  | nil =>
    intro x hx
    exact absurd hx (List.not_mem_nil x)
  | cons a t ih =>
    intro x hx hgx
    rcases List.mem_cons.mp hx with heq | hmem
    · subst heq
      rw [optionMap, hgx]
    · rw [optionMap, ih x hmem hgx]
      cases g a <;> rfl

/-- If the callback succeeds on every element, `optionMap` is the map of
the values. -/
theorem optionMap_eq_map (g : γ → Option δ) (f : γ → δ) :
    ∀ l : List γ, (∀ x ∈ l, g x = some (f x)) → optionMap g l = some (l.map f) := by
  intro l
  induction l with
  | nil =>
    intro _
    rfl
  | cons a t ih =>
    intro h
    rw [optionMap, h a (List.mem_cons_self a t),
      ih (fun x hx => h x (List.mem_cons_of_mem a hx)), List.map_cons]

/-- A part whose `coordTimes` entry has the wrong length makes
`multiSplitPart` fail. -/
theorem multiSplitPart_none (properties : Properties) (tss : List (List String))
    (pr : Nat × List Coord) (h : (tss.getD pr.1 []).length ≠ pr.2.length) :
    multiSplitPart properties tss pr = none := by
  obtain ⟨i, coordinates⟩ := pr
  rw [multiSplitPart]
  by_cases hi : i < tss.length
  · rw [if_pos hi, if_neg h]
  · rw [if_neg hi]

/-- A chain's start never exceeds its end. -/
theorem chainFrom_le :
    ∀ (rs : List (Nat × Nat)) (lo n : Nat), chainFrom lo n rs → lo ≤ n := by
  intro rs
  induction rs with
  | nil =>
    intro lo n h
    exact le_of_eq h
  | cons a rest ih =>
    intro lo n h
    obtain ⟨h1, h2, hchain⟩ := h
    exact le_trans (le_of_lt h2) (ih a.2 n hchain)

/-- Every range in a chain is non-empty and ends within the chain's end. -/
theorem chainFrom_bounds :
    ∀ (rs : List (Nat × Nat)) (lo n : Nat), chainFrom lo n rs →
      ∀ r ∈ rs, r.1 < r.2 ∧ r.2 ≤ n := by
  intro rs
  induction rs with
  | nil =>
    intro lo n _ r hr
    exact absurd hr (List.not_mem_nil r)
  | cons a rest ih =>
    intro lo n h r hr
    obtain ⟨h1, h2, hchain⟩ := h
    rcases List.mem_cons.mp hr with heq | hmem
    · subst heq
      exact ⟨by omega, chainFrom_le rest r.2 n hchain⟩
    · exact ih a.2 n hchain r hmem

/-- Inside every range of `uniqueRangeLoop`, each element beyond the
first is equivalent to the element at the range's start. -/
theorem uniqueRangeLoop_within (array : List α) [Inhabited α] (equal : α → α → Bool) :
    ∀ (fuel lo : Nat), lo ≤ array.length → array.length - lo ≤ fuel →
      ∀ r ∈ uniqueRangeLoop array equal (fun l h _ => (l, h)) fuel lo,
        ∀ j, r.1 < j → j < r.2 →
          equal (array.getD r.1 default) (array.getD j default) = true := by
  intro fuel
  induction fuel with
  | zero =>
    intro lo h1 h2 r hr
    rw [uniqueRangeLoop] at hr
    exact absurd hr (List.not_mem_nil r)
  | succ fuel ih =>
    intro lo h1 h2 r hr
    rw [uniqueRangeLoop] at hr
    by_cases hc : lo ≠ array.length
    · rw [if_pos hc] at hr
      have hr' : r ∈ (lo, findHi array equal lo array.length (1 + lo)) ::
          uniqueRangeLoop array equal (fun l h _ => (l, h)) fuel
            (findHi array equal lo array.length (1 + lo)) := hr
      have hfind := findHi_le array equal lo array.length (1 + lo) (by omega) (by omega)
      rcases List.mem_cons.mp hr' with heq | hmem
      · subst heq
        intro j hj1 hj2
        exact findHi_within array equal lo array.length (1 + lo) (by omega) (by omega)
          j (by omega) hj2
      · exact ih (findHi array equal lo array.length (1 + lo)) (by omega) (by omega) r hmem
    · rw [if_neg hc] at hr
      exact absurd hr (List.not_mem_nil r)

/-- Inside every range of `uniqueRanges`, each element beyond the first
is equivalent to the element at the range's start. -/
theorem uniqueRanges_within (array : List α) [Inhabited α] (equal : α → α → Bool) :
    ∀ r ∈ uniqueRanges array equal, ∀ j, r.1 < j → j < r.2 →
      equal (array.getD r.1 default) (array.getD j default) = true :=
  uniqueRangeLoop_within array equal array.length 0 (Nat.zero_le _) (by omega)

/-- The scan of `findHi` stops either at the end of the array or at an
element that is not equivalent to the element at `lo`. -/
theorem findHi_stop (array : List α) [Inhabited α] (equal : α → α → Bool) (lo : Nat) :
    ∀ (fuel hi : Nat), hi ≤ array.length → array.length - hi ≤ fuel →
      findHi array equal lo fuel hi = array.length ∨
        equal (array.getD lo default)
          (array.getD (findHi array equal lo fuel hi) default) = false := by
  intro fuel
  induction fuel with
  | zero =>
    intro hi h1 h2
    rw [findHi]
    omega
  | succ fuel ih =>
    intro hi h1 h2
    rw [findHi]
    by_cases hc : hi ≠ array.length ∧
        equal (array.getD lo default) (array.getD hi default) = true
    · rw [if_pos hc]
      exact ih (hi + 1) (by omega) (by omega)
    · rw [if_neg hc]
      by_cases hend : hi = array.length
      · exact Or.inl hend
      · refine Or.inr ?_
        rcases Bool.eq_false_or_eq_true
            (equal (array.getD lo default) (array.getD hi default)) with ht | hf
        · exact absurd ⟨hend, ht⟩ hc
        · exact hf

/-- Every range of `uniqueRangeLoop` is maximal: it ends at the end of
the array, or the element right after it is not equivalent to the
element at its start. -/
theorem uniqueRangeLoop_stop (array : List α) [Inhabited α] (equal : α → α → Bool) :
    ∀ (fuel lo : Nat), lo ≤ array.length → array.length - lo ≤ fuel →
      ∀ r ∈ uniqueRangeLoop array equal (fun l h _ => (l, h)) fuel lo,
        r.2 = array.length ∨
          equal (array.getD r.1 default) (array.getD r.2 default) = false := by
  intro fuel
  induction fuel with
  | zero =>
    intro lo h1 h2 r hr
    rw [uniqueRangeLoop] at hr
    exact absurd hr (List.not_mem_nil r)
  | succ fuel ih =>
    intro lo h1 h2 r hr
    rw [uniqueRangeLoop] at hr
    by_cases hc : lo ≠ array.length
    · rw [if_pos hc] at hr
      have hr' : r ∈ (lo, findHi array equal lo array.length (1 + lo)) ::
          uniqueRangeLoop array equal (fun l h _ => (l, h)) fuel
            (findHi array equal lo array.length (1 + lo)) := hr
      have hfind := findHi_le array equal lo array.length (1 + lo) (by omega) (by omega)
      rcases List.mem_cons.mp hr' with heq | hmem
      · subst heq
        exact findHi_stop array equal lo array.length (1 + lo) (by omega) (by omega)
      · exact ih (findHi array equal lo array.length (1 + lo)) (by omega) (by omega) r hmem
    · rw [if_neg hc] at hr
      exact absurd hr (List.not_mem_nil r)

/-- Every range of `uniqueRanges` is maximal: it ends at the end of the
array, or the element right after it is not equivalent to the element
at its start. -/
theorem uniqueRanges_stop (array : List α) [Inhabited α] (equal : α → α → Bool) :
    ∀ r ∈ uniqueRanges array equal,
      r.2 = array.length ∨
        equal (array.getD r.1 default) (array.getD r.2 default) = false :=
  uniqueRangeLoop_stop array equal array.length 0 (Nat.zero_le _) (by omega)

/-- One unfolding of the outer loop away from the end of the array. -/
theorem uniqueRangeLoop_step (array : List α) [Inhabited α] (equal : α → α → Bool)
    (func : Nat → Nat → List α → β) (fuel lo : Nat) (h : lo ≠ array.length) :
    uniqueRangeLoop array equal func (fuel + 1) lo =
      func lo (findHi array equal lo array.length (1 + lo)) array ::
        uniqueRangeLoop array equal func fuel
          (findHi array equal lo array.length (1 + lo)) := by
  rw [uniqueRangeLoop, if_pos h]

/-- The outer loop at the end of the array returns nothing, for any fuel. -/
theorem uniqueRangeLoop_at_end (array : List α) [Inhabited α] (equal : α → α → Bool)
    (func : Nat → Nat → List α → β) :
    ∀ fuel, uniqueRangeLoop array equal func fuel array.length = [] := by
  intro fuel
  cases fuel with
  | zero => rfl
  | succ fuel => rw [uniqueRangeLoop, if_neg (fun h => h rfl)]

/-- Taking a positive prefix preserves the head. -/
theorem head?_take_of_pos (xs : List γ) (n : Nat) (h : 0 < n) :
    (xs.take n).head? = xs.head? := by
  cases xs with
  | nil => simp
  | cons a t =>
    cases n with
    | zero => omega
    | succ n => rfl

/-- The head of a non-empty slice is the element at its start index. -/
theorem jsSlice_head? (l : List γ) [Inhabited γ] (lo hi : Nat)
    (h1 : lo < hi) (h2 : lo < l.length) :
    (jsSlice l lo hi).head? = some (l.getD lo default) := by
  rw [jsSlice, head?_take_of_pos _ _ (by omega), List.head?_drop,
    List.getElem?_eq_getElem h2, List.getD_eq_getElem l default h2]

/-- Every element of an in-bounds slice is an element of the list at an
index inside the range. -/
theorem mem_jsSlice (l : List γ) [Inhabited γ] (lo hi : Nat) (x : γ)
    (hx : x ∈ jsSlice l lo hi) :
    ∃ j, lo ≤ j ∧ j < hi ∧ j < l.length ∧ x = l.getD j default := by
  rw [jsSlice] at hx
  obtain ⟨i, hi2, hget⟩ := List.mem_iff_getElem.mp hx
  have hlen : i < hi - lo ∧ i < l.length - lo := by
    rw [List.length_take, List.length_drop] at hi2
    omega
  refine ⟨lo + i, by omega, by omega, by omega, ?_⟩
  simp only [List.getElem_take, List.getElem_drop] at hget
  rw [List.getD_eq_getElem l default (by omega)]
  exact hget.symm

end BwMap

namespace BwMap

/-- **C3** (counterexample): the `LineString` feature `c3Mismatch` has a
`coordTimes` of length 1 against 2 coordinates, yet the pipeline does
not abort: `multiSplit` passes it through and `dateSplit` emits it with
a fallback date — output is produced despite the mismatch. -/
theorem claim_C3_mismatch_counterexample :
    (ctFlat c3Mismatch.properties.coordTimes).length ≠
        (lineStringCoords c3Mismatch.geometry).length ∧
      multiSplit c3Mismatch = some [c3Mismatch] ∧
      dateSplit c3Mismatch =
        some [{ properties := { c3Mismatch.properties with date := some "2017-06-10" }
                geometry := c3Mismatch.geometry }] := by
  refine ⟨by decide, by decide, by decide⟩

/-- **C3** (amended): a `coordTimes`/coordinate length mismatch is not
rejected by the splitting stages: `multiSplit` passes a mismatched
`LineString` through unchanged and `dateSplit` takes its fallback
branch, emitting the feature with a fallback date and the mismatched
`coordTimes` retained.  Mismatches do abort elsewhere: `multiSplit`
fails for a `MultiLineString` whose per-part `coordTimes` entry
mismatches that part's coordinate count, and `mergeLines` fails when a
feature with mismatched flat `coordTimes` lies in a same-date run of
two or more line features whose first element carries `coordTimes`.  A
mismatched feature alone in its date run is returned by `mergeLines`
unchanged, so the pipeline emits output for it. -/
theorem claim_C3_mismatch_amended :
    (∀ (feature : Feature) (parts : List (List Coord)) (tss : List (List String))
        (pr : Nat × List Coord),
      feature.geometry = Geometry.multiLineString parts →
      feature.properties.coordTimes = some (CoordTimes.nested tss) →
      pr ∈ parts.enum → (tss.getD pr.1 []).length ≠ pr.2.length →
      multiSplit feature = none) ∧
    (∀ (feature : Feature) (coordinates : List Coord) (ts : List String),
      feature.geometry = Geometry.lineString coordinates →
      feature.properties.coordTimes = some (CoordTimes.flat ts) →
      ts.length ≠ coordinates.length →
      dateSplit feature = dateSplitFallback feature ∧
        multiSplit feature = some [feature]) ∧
    (∀ (lo hi : Nat) (features : List Feature) (w : Feature) (wts : List String),
      lo + 1 < hi → hi ≤ features.length →
      (∀ v ∈ jsSlice features lo hi, isLineString v.geometry = true) →
      (features.getD lo default).properties.coordTimes.isSome = true →
      w ∈ jsSlice features lo hi →
      w.properties.coordTimes = some (CoordTimes.flat wts) →
      wts.length ≠ (lineStringCoords w.geometry).length →
      mergeLines lo hi features = none) ∧
    (∀ (lo : Nat) (features : List Feature), lo < features.length →
      mergeLines lo (lo + 1) features = some (features.getD lo default)) := by
  refine ⟨?_, ?_, ?_, ?_⟩
  · intro feature parts tss pr hgeo hct hmem hlen
    simp only [multiSplit, hgeo, hct]
    exact optionMap_none_of_mem _ parts.enum pr hmem (multiSplitPart_none _ tss pr hlen)
  · intro feature coordinates ts hgeo hct hlen
    constructor
    · simp only [dateSplit, hgeo, hct, if_neg hlen]
    · simp only [multiSplit, hgeo]
  · intro lo hi features w wts hlo hhi hline hct hw hwct hwlen
    have hpos : 0 < (jsSlice features lo hi).length := by
      rw [jsSlice, List.length_take, List.length_drop]
      omega
    have hhead := jsSlice_head? features lo hi (by omega) (by omega)
    have hnone : optionMap mergeTimes (jsSlice features lo hi) = none := by
      apply optionMap_none_of_mem mergeTimes _ w hw
      simp only [mergeTimes, hwct, if_neg hwlen]
    have hallLine : ((jsSlice features lo hi).all
        (fun f => isLineString f.geometry)) = true := by
      rw [List.all_eq_true]
      exact hline
    rcases hsl : jsSlice features lo hi with _ | ⟨first, rest⟩
    · rw [hsl] at hpos
      simp at hpos
    · rw [hsl] at hhead hnone hallLine
      have hfirst : first = features.getD lo default := by
        have h2 : some first = some (features.getD lo default) := hhead
        exact Option.some.inj h2
      rw [← hfirst] at hct
      rw [mergeLines, if_neg (show ¬ hi ≤ lo + 1 by omega)]
      simp only [hsl, List.head?_cons]
      rw [if_pos hallLine]
      rcases hctv : first.properties.coordTimes with _ | ct
      · rw [hctv] at hct
        simp at hct
      · simp only [hctv, hnone]
  · intro lo features hlo
    rw [mergeLines, if_pos (le_refl (lo + 1)), List.getElem?_eq_getElem hlo,
      List.getD_eq_getElem features default hlo]

/-- Witness for the amended C3: `multiSplit` rejects the mismatched
multi-line `c3MultiBad`; `dateSplit` routes the mismatched line
`c3Mismatch` to its fallback; `mergeLines` rejects a two-feature run
containing `c3Mismatch` but returns it unchanged as a singleton run. -/
theorem claim_C3_mismatch_amended_witness :
    multiSplit c3MultiBad = none ∧
      dateSplit c3Mismatch = dateSplitFallback c3Mismatch ∧
      mergeLines 0 2 [c3Mismatch, c5B] = none ∧
      mergeLines 0 1 [c3Mismatch, c5B] = some ([c3Mismatch, c5B].getD 0 default) := by
  refine ⟨?_, ?_, ?_, ?_⟩
  · exact claim_C3_mismatch_amended.1 c3MultiBad [[[8, 47]], [[9, 48], [10, 49]]]
      [["2017-06-10T08:00:00Z"], ["2017-06-10T08:05:00Z"]] (1, [[9, 48], [10, 49]])
      rfl rfl (by decide) (by decide)
  · exact (claim_C3_mismatch_amended.2.1 c3Mismatch [[8, 47], [9, 48]]
      ["2017-06-10T08:00:00Z"] rfl rfl (by decide)).1
  · exact claim_C3_mismatch_amended.2.2.1 0 2 [c3Mismatch, c5B] c3Mismatch
      ["2017-06-10T08:00:00Z"] (by omega) (by decide) (by decide) (by decide)
      (by decide) rfl (by decide)
  · exact claim_C3_mismatch_amended.2.2.2 0 [c3Mismatch, c5B] (by decide)

end BwMap

namespace BwMap

/-- When the scan from `0` stops at `k` and the scan from `k` runs to
the end, `forEachUniqueRange` produces exactly the two ranges `[0, k)`
and `[k, length)`. -/
theorem uniqueRanges_pair (array : List α) [Inhabited α] (equal : α → α → Bool)
    (k : Nat) (hk0 : 0 < k) (hkn : k < array.length)
    (h1 : findHi array equal 0 array.length 1 = k)
    (h2 : findHi array equal k array.length (1 + k) = array.length) :
    uniqueRanges array equal = [(0, k), (k, array.length)] := by
  obtain ⟨m, hm⟩ : ∃ m, array.length = m + 1 + 1 := ⟨array.length - 2, by omega⟩
  show uniqueRangeLoop array equal (fun l h _ => (l, h)) array.length 0 = _
  conv_lhs => rw [hm]
  rw [uniqueRangeLoop_step array equal _ (m + 1) 0 (by omega), Nat.add_zero, h1,
    uniqueRangeLoop_step array equal _ m k (by omega), h2, uniqueRangeLoop_at_end]

/-- **C4**: for every `LineString` feature whose `coordTimes` is aligned
1:1 with its coordinates, `dateSplit` emits one feature per maximal
contiguous run of timestamps sharing the same first-10-character
calendar date: the outputs are exactly the per-run slices along
`uniqueRanges`; concatenating the outputs' coordinates (respectively
timestamps) reconstructs the input, so every point appears in exactly
one output; within each output every timestamp carries the calendar
date stored in `date`; and a track spanning exactly two calendar dates
yields exactly two features. -/
theorem claim_C4_dateSplit_runs (feature : Feature) (coordinates : List Coord)
    (ts : List String)
    (hgeo : feature.geometry = Geometry.lineString coordinates)
    (hct : feature.properties.coordTimes = some (CoordTimes.flat ts))
    (hlen : ts.length = coordinates.length) :
    ∃ outs : List Feature,
      dateSplit feature = some outs ∧
      outs = (uniqueRanges ts (fun lhs rhs => lhs.take 10 == rhs.take 10)).map
        (fun r => dateSplitRun feature ts coordinates r.1 r.2 ts) ∧
      (outs.map (fun g => lineStringCoords g.geometry)).flatten = coordinates ∧
      (outs.map (fun g => ctFlat g.properties.coordTimes)).flatten = ts ∧
      (∀ g ∈ outs, ∃ cts : List String,
        g.properties.coordTimes = some (CoordTimes.flat cts) ∧ cts ≠ [] ∧
        ∀ t ∈ cts, g.properties.date = some (t.take 10)) ∧
      (∀ r ∈ uniqueRanges ts (fun lhs rhs => lhs.take 10 == rhs.take 10),
        r.2 = ts.length ∨
          (ts.getD r.1 default).take 10 ≠ (ts.getD r.2 default).take 10) ∧
      (∀ (k : Nat) (d₁ d₂ : String), 0 < k → k < ts.length →
        (∀ i : Nat, i < k → (ts.getD i default).take 10 = d₁) →
        (∀ i : Nat, i < ts.length → k ≤ i → (ts.getD i default).take 10 = d₂) →
        d₁ ≠ d₂ → outs.length = 2) := by
  have hchain : chainFrom 0 ts.length
      (uniqueRanges ts (fun lhs rhs => lhs.take 10 == rhs.take 10)) :=
    uniqueRanges_chain ts _
  have hmap : forEachUniqueRange ts (fun lhs rhs => lhs.take 10 == rhs.take 10)
        (dateSplitRun feature ts coordinates) =
      (uniqueRanges ts (fun lhs rhs => lhs.take 10 == rhs.take 10)).map
        (fun r => dateSplitRun feature ts coordinates r.1 r.2 ts) :=
    uniqueRangeLoop_map ts _ _ ts.length 0
  refine ⟨forEachUniqueRange ts (fun lhs rhs => lhs.take 10 == rhs.take 10)
    (dateSplitRun feature ts coordinates), ?_, hmap, ?_, ?_, ?_, ?_, ?_⟩
  · simp only [dateSplit, hgeo, hct, if_pos hlen]
  · rw [hmap, List.map_map]
    have hchainC : chainFrom 0 coordinates.length
        (uniqueRanges ts (fun lhs rhs => lhs.take 10 == rhs.take 10)) := by
      rw [← hlen]
      exact hchain
    have h := chainFrom_join coordinates
      (uniqueRanges ts (fun lhs rhs => lhs.take 10 == rhs.take 10)) 0 hchainC
    rw [List.drop_zero] at h
    exact h
  · rw [hmap, List.map_map]
    have h := chainFrom_join ts
      (uniqueRanges ts (fun lhs rhs => lhs.take 10 == rhs.take 10)) 0 hchain
    rw [List.drop_zero] at h
    exact h
  · intro g hg
    rw [hmap] at hg
    obtain ⟨r, hr, rfl⟩ := List.mem_map.mp hg
    have hb := chainFrom_bounds _ 0 ts.length hchain r hr
    refine ⟨jsSlice ts r.1 r.2, rfl, ?_, ?_⟩
    · have hl : (jsSlice ts r.1 r.2).length = min (r.2 - r.1) (ts.length - r.1) := by
        rw [jsSlice, List.length_take, List.length_drop]
      intro hnil
      rw [hnil] at hl
      simp only [List.length_nil] at hl
      omega
    · intro t ht
      obtain ⟨j, hj1, hj2, hj3, rfl⟩ := mem_jsSlice ts r.1 r.2 t ht
      show (jsSlice ts r.1 r.2).head?.map (fun s => s.take 10) =
        some ((ts.getD j default).take 10)
      rw [jsSlice_head? ts r.1 r.2 hb.1 (by omega)]
      show some ((ts.getD r.1 default).take 10) = some ((ts.getD j default).take 10)
      rcases Nat.eq_or_lt_of_le hj1 with heq | hlt
      · rw [heq]
      · have hwithin := uniqueRanges_within ts
          (fun lhs rhs => lhs.take 10 == rhs.take 10) r hr j hlt hj2
        have heq10 : (ts.getD r.1 default).take 10 = (ts.getD j default).take 10 :=
          eq_of_beq hwithin
        rw [heq10]
  · intro r hr
    rcases uniqueRanges_stop ts (fun lhs rhs => lhs.take 10 == rhs.take 10) r hr
        with hend | hne
    · exact Or.inl hend
    · exact Or.inr (by
        intro heq
        rw [heq] at hne
        rw [beq_self_eq_true] at hne
        exact Bool.noConfusion hne)
  · intro k d₁ d₂ hk0 hkn hlow hhigh hne
    have h1 : findHi ts (fun lhs rhs => lhs.take 10 == rhs.take 10) 0 ts.length 1 = k := by
      apply findHi_eq
      · omega
      · omega
      · omega
      · intro j hj1 hjk
        show ((ts.getD 0 default).take 10 == (ts.getD j default).take 10) = true
        rw [hlow 0 hk0, hlow j hjk]
        exact beq_self_eq_true d₁
      · right
        show ((ts.getD 0 default).take 10 == (ts.getD k default).take 10) = false
        rw [hlow 0 hk0, hhigh k hkn (le_refl k)]
        exact beq_eq_false_iff_ne.mpr hne
    have h2 : findHi ts (fun lhs rhs => lhs.take 10 == rhs.take 10) k ts.length (1 + k)
        = ts.length := by
      apply findHi_eq
      · omega
      · omega
      · omega
      · intro j hj1 hjn
        show ((ts.getD k default).take 10 == (ts.getD j default).take 10) = true
        rw [hhigh k hkn (le_refl k), hhigh j hjn (by omega)]
        exact beq_self_eq_true d₂
      · left
        rfl
    have hrs := uniqueRanges_pair ts (fun lhs rhs => lhs.take 10 == rhs.take 10)
      k hk0 hkn h1 h2
    rw [hmap, hrs]
    rfl

/-- Witness for C4: the two-day feature `c4TwoDay` splits into exactly
two day features. -/
theorem claim_C4_dateSplit_runs_witness :
    (dateSplit c4TwoDay).map List.length = some 2 := by
  obtain ⟨outs, hsplit, _, _, _, _, _, htwo⟩ :=
    claim_C4_dateSplit_runs c4TwoDay [[1, 2], [3, 4], [5, 6]]
      ["2017-06-10T23:50", "2017-06-10T23:55", "2017-06-11T00:10"] rfl rfl (by decide)
  rw [hsplit]
  show some outs.length = some 2
  rw [htwo 2 "2017-06-10" "2017-06-11" (by decide) (by decide) (by decide) (by decide)
    (by decide)]

end BwMap

namespace BwMap

/-- **C7**: for every run containing exactly one feature, `mergeLines`
returns that feature unchanged — geometry, properties and all. -/
theorem claim_C7_mergeLines_singleton (lo hi : Nat) (features : List Feature)
    (hrange : hi = lo + 1) (hlo : lo < features.length) :
    mergeLines lo hi features = some (features.getD lo default) := by
  subst hrange
  rw [mergeLines, if_pos (le_refl (lo + 1)), List.getElem?_eq_getElem hlo,
    List.getD_eq_getElem features default hlo]

/-- Witness for C7 at a concrete two-feature list. -/
theorem claim_C7_mergeLines_singleton_witness :
    mergeLines 1 2 [c3Mismatch, c4TwoDay] = some ([c3Mismatch, c4TwoDay].getD 1 default) :=
  claim_C7_mergeLines_singleton 1 2 [c3Mismatch, c4TwoDay] rfl (by decide)

end BwMap

namespace BwMap

/-- **C5**: for every run of two or more same-date `LineString`
features, `mergeLines` returns a single feature whose geometry is a
`MultiLineString` with the parts in run order and whose `date` is the
first element's date.  When the first element carries no `coordTimes`,
those are the only properties; when the elements carry a `coordTimes`
aligned with their own coordinates (the alignment the source asserts),
`coordTimes` is additionally the ordered sequence of the elements'
timestamp arrays and `time` is the first element's first timestamp. -/
theorem claim_C5_mergeLines_multi (lo hi : Nat) (features : List Feature)
    (hlo : lo + 1 < hi) (hhi : hi ≤ features.length)
    (hline : ∀ w ∈ jsSlice features lo hi, isLineString w.geometry = true) :
    ((features.getD lo default).properties.coordTimes = none →
      mergeLines lo hi features =
        some { properties := { date := (features.getD lo default).properties.date }
               geometry := Geometry.multiLineString
                 ((jsSlice features lo hi).map (fun w => lineStringCoords w.geometry)) }) ∧
    ((∀ w ∈ jsSlice features lo hi, ∃ (c : List Coord) (wts : List String),
        w.geometry = Geometry.lineString c ∧
        w.properties.coordTimes = some (CoordTimes.flat wts) ∧ wts.length = c.length) →
      mergeLines lo hi features =
        some { properties :=
                 { date := (features.getD lo default).properties.date
                   coordTimes := some (CoordTimes.nested
                     ((jsSlice features lo hi).map (fun w => ctFlat w.properties.coordTimes)))
                   time := (ctFlat (features.getD lo default).properties.coordTimes).head? }
               geometry := Geometry.multiLineString
                 ((jsSlice features lo hi).map (fun w => lineStringCoords w.geometry)) }) := by
  have hpos : 0 < (jsSlice features lo hi).length := by
    rw [jsSlice, List.length_take, List.length_drop]
    omega
  have hhead := jsSlice_head? features lo hi (by omega) (by omega)
  have hallLine : ((jsSlice features lo hi).all (fun f => isLineString f.geometry)) = true := by
    rw [List.all_eq_true]
    exact hline
  rcases hsl : jsSlice features lo hi with _ | ⟨first, rest⟩
  · rw [hsl] at hpos
    simp at hpos
  · rw [hsl] at hhead hallLine
    have hfirst : first = features.getD lo default := by
      have h2 : some first = some (features.getD lo default) := hhead
      exact Option.some.inj h2
    constructor
    · intro hctn
      rw [← hfirst] at hctn
      rw [mergeLines, if_neg (show ¬ hi ≤ lo + 1 by omega)]
      simp only [hsl, List.head?_cons]
      rw [if_pos hallLine]
      simp only [hctn, ← hfirst]
    · intro hall
      have hmergeT : optionMap mergeTimes (first :: rest) =
          some ((first :: rest).map (fun w => ctFlat w.properties.coordTimes)) := by
        apply optionMap_eq_map
        intro w hw
        obtain ⟨c, wts, hg, hc, hl⟩ := hall w hw
        rw [mergeTimes, hc]
        simp only [hg, lineStringCoords, ctFlat, if_pos hl]
      obtain ⟨c₀, wts₀, hg₀, hc₀, hl₀⟩ := hall first (List.mem_cons_self first rest)
      rw [mergeLines, if_neg (show ¬ hi ≤ lo + 1 by omega)]
      simp only [hsl, List.head?_cons, hc₀, hmergeT, List.map_cons,
        List.getD_cons_zero, ctFlat]
      rw [if_pos hallLine]
      simp only [← hfirst, hc₀, ctFlat]

end BwMap

namespace BwMap

/-- Witness for C5: merging the `coordTimes`-free pair `c5C`, `c5D` and
the `coordTimes`-carrying pair `c5A`, `c5B`. -/
theorem claim_C5_mergeLines_multi_witness :
    mergeLines 0 2 [c5C, c5D] =
      some { properties := { date := ([c5C, c5D].getD 0 default).properties.date }
             geometry := Geometry.multiLineString
               ((jsSlice [c5C, c5D] 0 2).map (fun w => lineStringCoords w.geometry)) } ∧
    mergeLines 0 2 [c5A, c5B] =
      some { properties :=
               { date := ([c5A, c5B].getD 0 default).properties.date
                 coordTimes := some (CoordTimes.nested
                   ((jsSlice [c5A, c5B] 0 2).map (fun w => ctFlat w.properties.coordTimes)))
                 time := (ctFlat ([c5A, c5B].getD 0 default).properties.coordTimes).head? }
             geometry := Geometry.multiLineString
               ((jsSlice [c5A, c5B] 0 2).map (fun w => lineStringCoords w.geometry)) } := by
  constructor
  · exact (claim_C5_mergeLines_multi 0 2 [c5C, c5D] (by omega) (by decide) (by decide)).1 rfl
  · refine (claim_C5_mergeLines_multi 0 2 [c5A, c5B] (by omega) (by decide) (by decide)).2 ?_
    intro w hw
    have hsl : jsSlice [c5A, c5B] 0 2 = [c5A, c5B] := by decide
    rw [hsl] at hw
    rcases List.mem_cons.mp hw with rfl | hw
    · exact ⟨[[1, 2], [3, 4]], ["2017-06-10T08:00", "2017-06-10T08:05"], rfl, rfl, rfl⟩
    · rcases List.mem_cons.mp hw with rfl | hw
      · exact ⟨[[5, 6]], ["2017-06-10T09:00"], rfl, rfl, rfl⟩
      · exact absurd hw (List.not_mem_nil w)

/-- Folding addition of a mapped value equals the accumulator plus the
sum of the mapped list. -/
theorem foldl_add_map (f : γ → ℚ) :
    ∀ (l : List γ) (a : ℚ),
      l.foldl (fun dist seg => dist + f seg) a = a + (l.map f).sum := by
  intro l
  induction l with
  | nil =>
    intro a
    simp
  | cons x t ih =>
    intro a
    rw [List.foldl_cons, ih, List.map_cons, List.sum_cons]
    ring

/-- `distance` on a single polyline is its per-segment sum. -/
theorem distance_single (earth : LatLng → LatLng → ℚ) (pts : List LatLng) :
    distance earth (Poly.single pts) = segDist earth pts := by
  rw [distance]
  by_cases h : pts.length = 0
  · rw [if_pos h, List.length_eq_zero.mp h]
    rfl
  · rw [if_neg h, List.foldl_cons, List.foldl_nil, zero_add]

/-- `distance` on a multi-polyline is the sum of its parts' segment sums. -/
theorem distance_multi (earth : LatLng → LatLng → ℚ) (parts : List (List LatLng)) :
    distance earth (Poly.multi parts) = (parts.map (segDist earth)).sum := by
  rw [distance]
  by_cases h : parts.length = 0
  · rw [if_pos h, List.length_eq_zero.mp h]
    rfl
  · rw [if_neg h, foldl_add_map, zero_add]

/-- The accumulated loop distance is non-negative for a non-negative
point distance. -/
theorem distLoop_nonneg (earth : LatLng → LatLng → ℚ)
    (hearth : ∀ p q, 0 ≤ earth p q) :
    ∀ (qs : List LatLng) (p : LatLng), 0 ≤ distLoop earth p qs := by
  intro qs
  induction qs with
  | nil =>
    intro p
    rw [distLoop]
  | cons q rest ih =>
    intro p
    rw [distLoop]
    exact add_nonneg (hearth p q) (ih q)

/-- Every segment contributes a non-negative distance. -/
theorem segDist_nonneg (earth : LatLng → LatLng → ℚ)
    (hearth : ∀ p q, 0 ≤ earth p q) (seg : List LatLng) :
    0 ≤ segDist earth seg := by
  rw [segDist]
  split
  · split
    · exact le_refl 0
    · exact distLoop_nonneg earth hearth _ _
  · exact le_refl 0

/-- **C6**: for every multi-part coordinate list and every non-negative
point-distance function, the total of `distance` equals the sum of the
parts' distances computed independently, every part of at most one
point contributes exactly 0, and the total is non-negative. -/
theorem claim_C6_distance_additive (earth : LatLng → LatLng → ℚ)
    (parts : List (List LatLng)) (hearth : ∀ p q, 0 ≤ earth p q) :
    distance earth (Poly.multi parts) =
        (parts.map (fun pts => distance earth (Poly.single pts))).sum ∧
      (∀ pts : List LatLng, pts.length ≤ 1 → distance earth (Poly.single pts) = 0) ∧
      0 ≤ distance earth (Poly.multi parts) := by
  refine ⟨?_, ?_, ?_⟩
  · rw [distance_multi]
    simp only [distance_single]
  · intro pts hlen
    rw [distance_single, segDist, if_neg (by omega)]
  · rw [distance_multi]
    apply List.sum_nonneg
    intro x hx
    obtain ⟨pts, _, rfl⟩ := List.mem_map.mp hx
    exact segDist_nonneg earth hearth pts

/-- Witness for C6 with the constant point distance 1. -/
theorem claim_C6_distance_additive_witness :
    (∀ p q : LatLng, 0 ≤ (fun _ _ => (1 : ℚ)) p q) ∧
      distance (fun _ _ => (1 : ℚ))
          (Poly.multi [[{ lat := 0, lng := 0 }, { lat := 1, lng := 1 }],
            [{ lat := 2, lng := 2 }]]) =
        (([[{ lat := 0, lng := 0 }, { lat := 1, lng := 1 }],
            [{ lat := 2, lng := 2 }]] : List (List LatLng)).map
          (fun pts => distance (fun _ _ => (1 : ℚ)) (Poly.single pts))).sum := by
  constructor
  · intro p q
    exact zero_le_one
  · exact (claim_C6_distance_additive (fun _ _ => (1 : ℚ))
      [[{ lat := 0, lng := 0 }, { lat := 1, lng := 1 }], [{ lat := 2, lng := 2 }]]
      (fun _ _ => zero_le_one)).1

end BwMap

namespace BwMap

/-- **C8** (counterexample): `c8Mixed` mixes a 2-D and a 3-D coordinate
in one line, yet `addBbox` does not fail — the claimed
all-coordinates-same-dimensionality assertion does not exist. -/
theorem claim_C8_bbox_dims_counterexample :
    (∃ c₁ ∈ lineStringCoords c8Mixed.geometry, ∃ c₂ ∈ lineStringCoords c8Mixed.geometry,
      c₁.length ≠ c₂.length) ∧
      (addBbox (fun _ _ => 0) c8Mixed).isSome = true := by
  exact ⟨by decide, by decide⟩

/-- **C8** (amended): the dimensionality assertion of `addBbox` examines
only the first coordinate: whenever `addBbox` succeeds on a `LineString`
feature, that feature's first coordinate is 2-D or 3-D; coordinates
beyond the first are unconstrained (mixed dimensionality passes, as the
counterexample shows). -/
theorem claim_C8_bbox_dims_amended (earth : LatLng → LatLng → ℚ)
    (feature : Feature) (coordinates : List Coord) (g : Feature)
    (hgeo : feature.geometry = Geometry.lineString coordinates)
    (hsome : addBbox earth feature = some g) :
    ∃ c0, coordinates.head? = some c0 ∧ (c0.length = 2 ∨ c0.length = 3) := by
  simp only [addBbox, hgeo] at hsome
  rcases hb : boundsOf (coordinates.map coordToLatLng) with _ | ⟨sw, ne⟩ <;>
    rcases hh : coordinates.head? with _ | c0 <;>
      simp only [hb, hh] at hsome <;>
        try exact Option.noConfusion hsome
  by_cases h3 : c0.length = 3
  · exact ⟨c0, rfl, Or.inr h3⟩
  · rw [if_neg h3] at hsome
    by_cases h2 : c0.length = 2
    · exact ⟨c0, rfl, Or.inl h2⟩
    · rw [if_neg h2] at hsome
      exact absurd hsome (by simp)

/-- Witness for the amended C8 at the mixed-dimensionality feature. -/
theorem claim_C8_bbox_dims_amended_witness :
    ∃ c0, ([[0, 0], [1, 1, 5]] : List Coord).head? = some c0 ∧
      (c0.length = 2 ∨ c0.length = 3) := by
  have hs : (addBbox (fun _ _ => 0) c8Mixed).isSome = true := by decide
  obtain ⟨g, hg⟩ := Option.isSome_iff_exists.mp hs
  exact claim_C8_bbox_dims_amended (fun _ _ => 0) c8Mixed [[0, 0], [1, 1, 5]] g rfl hg

/-- **C9** (counterexample): merging the same-date features `c5A`,
`c5B` yields a feature that carries nested `coordTimes` and `time`, but
after the bounding-box/distance enrichment both are gone: `addBbox`
rebuilds the properties with only `date` and `distance`. -/
theorem claim_C9_enriched_counterexample :
    (mergeLines 0 2 [c5A, c5B]).map
        (fun m => (m.properties.coordTimes.isSome, m.properties.time.isSome)) =
      some (true, true) ∧
      ((mergeLines 0 2 [c5A, c5B]).bind (addBbox (fun _ _ => 0))).map
        (fun m => (m.properties.coordTimes, m.properties.time)) = some (none, none) := by
  exact ⟨by decide, by decide⟩

/-- **C9** (amended): the enriched feature produced by `addBbox` for a
line or multi-line feature keeps the `date`, gains a bounding box and a
rounded distance, and carries no `coordTimes`, `time` or `gpxFileName`:
the enrichment rebuilds the properties with only `date` and `distance`. -/
theorem claim_C9_enriched_amended (earth : LatLng → LatLng → ℚ)
    (feature g : Feature)
    (hline : isLineType feature.geometry = true)
    (hsome : addBbox earth feature = some g) :
    g.properties.date = feature.properties.date ∧
      g.properties.distance.isSome = true ∧
      g.bbox.isSome = true ∧
      g.properties.coordTimes = none ∧
      g.properties.time = none ∧
      g.properties.gpxFileName = none := by
  cases hgeo : feature.geometry with
  | point c =>
    rw [hgeo] at hline
    exact absurd hline (by simp [isLineType])
  | lineString coordinates =>
    simp only [addBbox, hgeo] at hsome
    rcases hb : boundsOf (coordinates.map coordToLatLng) with _ | ⟨sw, ne⟩ <;>
      rcases hh : coordinates.head? with _ | c0 <;>
        simp only [hb, hh] at hsome <;>
          try exact Option.noConfusion hsome
    by_cases h3 : c0.length = 3
    · rw [if_pos h3] at hsome
      obtain rfl := (Option.some.inj hsome).symm
      exact ⟨rfl, rfl, rfl, rfl, rfl, rfl⟩
    · rw [if_neg h3] at hsome
      by_cases h2 : c0.length = 2
      · rw [if_pos h2] at hsome
        obtain rfl := (Option.some.inj hsome).symm
        exact ⟨rfl, rfl, rfl, rfl, rfl, rfl⟩
      · rw [if_neg h2] at hsome
        exact absurd hsome (by simp)
  | multiLineString parts =>
    simp only [addBbox, hgeo] at hsome
    rcases hb : boundsOf (parts.map (fun part => part.map coordToLatLng)).flatten
        with _ | ⟨sw, ne⟩ <;>
      rcases hh : (parts.getD 0 []).head? with _ | c0 <;>
        simp only [hb, hh] at hsome <;>
          try exact Option.noConfusion hsome
    by_cases h3 : c0.length = 3
    · rw [if_pos h3] at hsome
      obtain rfl := (Option.some.inj hsome).symm
      exact ⟨rfl, rfl, rfl, rfl, rfl, rfl⟩
    · rw [if_neg h3] at hsome
      by_cases h2 : c0.length = 2
      · rw [if_pos h2] at hsome
        obtain rfl := (Option.some.inj hsome).symm
        exact ⟨rfl, rfl, rfl, rfl, rfl, rfl⟩
      · rw [if_neg h2] at hsome
        exact absurd hsome (by simp)

/-- Witness for the amended C9 at the concrete line feature `c9Line`,
which carries `coordTimes`, `time` and a file name before enrichment. -/
theorem claim_C9_enriched_amended_witness :
    ∃ g : Feature, addBbox (fun _ _ => (0 : ℚ)) c9Line = some g ∧
      g.properties.coordTimes = none ∧ g.properties.time = none ∧
      g.properties.date = c9Line.properties.date ∧ g.bbox.isSome = true := by
  have hs : (addBbox (fun _ _ => (0 : ℚ)) c9Line).isSome = true := by decide
  obtain ⟨g, hg⟩ := Option.isSome_iff_exists.mp hs
  have h := claim_C9_enriched_amended (fun _ _ => (0 : ℚ)) c9Line g (by decide) hg
  exact ⟨g, hg, h.2.2.2.1, h.2.2.2.2.1, h.1, h.2.2.1⟩

end BwMap
